import Mathlib

/-!
Verification development for the keras-tuner repository slice consisting of
`kerastuner/distributions/randomdistributions/randomdistributions.py`,
`kerastuner/engine/instance.py`, and the behaviour of
`kerastuner.collections.MetricsCollection` / `kerastuner.engine.metric.Metric`
as documented by the specification and exercised by
`tests/kerastuner/collections/test_metricscollection.py`.

Python numbers are embedded as integers (`ℤ`) and exact rationals (`ℚ`,
standing for Python floats), fallible calls return `Except PyErr`, and mutable
objects are threaded explicitly as state values.
-/

deriving instance DecidableEq for Except

/-- Python exception kinds raised by the modelled code paths. -/
inductive PyErr where
  | valueError (msg : String)
  | typeError
  | indexError
deriving DecidableEq

mutual
/-- A Python value as it appears in this code base: ints, floats (as exact
rationals), numpy float32 scalars (`pnp`, also carried as a rational but not
JSON-serializable), strings, booleans, `None`, lists and string-keyed dicts. -/
inductive PVal where
  | pint (z : ℤ)
  | pflt (q : ℚ)
  | pnp (q : ℚ)
  | pstr (s : String)
  | pbool (b : Bool)
  | pnone
  | plist (l : PList)
  | pdict (d : PDict)

/-- A Python list of `PVal`s. -/
inductive PList where
  | nil
  | cons (v : PVal) (vs : PList)

/-- A Python dict with string keys and `PVal` values, in insertion order. -/
inductive PDict where
  | nil
  | cons (k : String) (v : PVal) (vs : PDict)
end

/-- Numeric interpretation of a Python value: ints, floats, numpy scalars and
booleans (`True == 1`, `False == 0`) all compare numerically under `==`. -/
def pyNumVal : PVal → Option ℚ
  | .pint z => some (z : ℚ)
  | .pflt q => some q
  | .pnp q => some q
  | .pbool b => some (if b then 1 else 0)
  | _ => Option.none

mutual
/-- Python `==`. Numbers (incl. booleans) compare by numeric value, strings by
content, lists elementwise and dicts entrywise (dict comparison is modelled
order-sensitively; the modelled code only compares dicts built in one fixed
key order). Values of unrelated kinds compare unequal. -/
def pyEq : PVal → PVal → Bool
  | .pstr s, .pstr t => s = t
  | .pnone, .pnone => true
  | .plist l, .plist m => pyEqList l m
  | .pdict l, .pdict m => pyEqDict l m
  | a, b =>
    match pyNumVal a, pyNumVal b with
    | some x, some y => x = y
    | _, _ => false

/-- Elementwise Python `==` on lists. -/
def pyEqList : PList → PList → Bool
  | .nil, .nil => true
  | .cons v vs, .cons w ws => pyEq v w && pyEqList vs ws
  | _, _ => false

/-- Entrywise Python `==` on dicts. -/
def pyEqDict : PDict → PDict → Bool
  | .nil, .nil => true
  | .cons k v vs, .cons k2 w ws => k = k2 && pyEq v w && pyEqDict vs ws
  | _, _ => false
end

mutual
/-- Semantic model of `json.loads(json.dumps(v))`: `json.dumps` raises
`TypeError` on numpy float32 scalars (`Option.none` here), and the
loads-of-dumps composite maps every JSON-serializable value back to itself
(ints to ints, floats to floats, strings, booleans, `None`, lists and dicts
recursively). -/
def dumpLoad : PVal → Option PVal
  | .pnp _ => Option.none
  | .plist l =>
    match dumpLoadList l with
    | some m => some (.plist m)
    | Option.none => Option.none
  | .pdict d =>
    match dumpLoadDict d with
    | some e => some (.pdict e)
    | Option.none => Option.none
  | v => some v

/-- `dumpLoad` mapped over a Python list. -/
def dumpLoadList : PList → Option PList
  | .nil => some .nil
  | .cons v vs =>
    match dumpLoad v, dumpLoadList vs with
    | some w, some ws => some (.cons w ws)
    | _, _ => Option.none

/-- `dumpLoad` mapped over a Python dict. -/
def dumpLoadDict : PDict → Option PDict
  | .nil => some .nil
  | .cons k v vs =>
    match dumpLoad v, dumpLoadDict vs with
    | some w, some ws => some (.cons k w ws)
    | _, _ => Option.none
end

/-- Python `int()` truncates toward zero. -/
def pyTrunc (q : ℚ) : ℤ :=
  if q < 0 then q.ceil else q.floor

/-- Convert a `List PVal` to the embedded Python list type. -/
def PList.ofList : List PVal → PList
  | [] => .nil
  | v :: vs => .cons v (PList.ofList vs)

/- ---------------------------------------------------------------------------
Metric and MetricsCollection.

`kerastuner/engine/metric.py` and `kerastuner/collections/metrics_collection.py`
are not part of the provided sources (only their test suite
`tests/kerastuner/collections/test_metricscollection.py` is), so the
definitions below are modelled from the specification's data-model and
component-design sections, with the unit tests fixing the concrete behaviour.
--------------------------------------------------------------------------- -/

/-- Optimization direction of a metric: minimize or maximize. -/
inductive Direction where
  | min
  | max
deriving DecidableEq

/-- Modelled from the spec: numeric inputs accepted by `Metric.update`
(Python ints, floats and numpy float32 scalars); `update` coerces them with
`float(value)`, which is why serialized configs hold plain floats. -/
inductive PNum where
  | int (z : ℤ)
  | flt (q : ℚ)
  | npF32 (q : ℚ)
deriving DecidableEq

/-- Python `float()` on a numeric value. -/
def pyFloatNum : PNum → ℚ
  | .int z => (z : ℚ)
  | .flt q => q
  | .npF32 q => q

/-- Modelled from the spec: a Metric has a name, an optimization direction
(minimize/maximize), an ordered history of observed values, and a flag marking
whether it is the current objective (`Metric.__init__` starts with an empty
history and the flag unset). -/
structure Metric where
  name : String
  direction : Direction
  history : List ℚ
  is_objective : Bool
deriving DecidableEq

/-- Best value of a history per direction: the minimum of the observed values
for direction `min`, the maximum for direction `max`; `Option.none` on an
empty history. -/
def bestOf (d : Direction) : List ℚ → Option ℚ
  | [] => Option.none
  | v :: vs =>
    some (match bestOf d vs with
      | Option.none => v
      | some b => match d with | .min => Min.min v b | .max => Max.max v b)

/-- Modelled from the spec: best value seen so far per the metric's
direction. -/
def Metric.get_best_value (m : Metric) : Option ℚ :=
  bestOf m.direction m.history

/-- Modelled from the spec: the most recently recorded value. -/
def Metric.get_last_value (m : Metric) : Option ℚ :=
  m.history.getLast?

/-- Modelled from the spec: `Metric.update(value)` coerces the value with
`float()`, appends it to the history, and returns whether it improved on the
running best per the metric's direction (strictly lower for `min`, strictly
higher for `max`); the very first recorded value always counts as an
improvement (the test suite's first `update` calls return `True`). -/
def Metric.update (m : Metric) (value : ℚ) : Bool × Metric :=
  let improved :=
    match m.get_best_value, m.direction with
    | Option.none, _ => true
    | some b, .min => decide (value < b)
    | some b, .max => decide (b < value)
  (improved, { m with history := m.history ++ [value] })

/-- Modelled from the spec: the alias table resolving alternate metric names
to one canonical key: `acc` to `accuracy` and `val_acc` to `val_accuracy`. -/
def replace_alias (name : String) : String :=
  if name = "acc" then "accuracy"
  else if name = "val_acc" then "val_accuracy"
  else name

/-- Modelled from the spec: the recognized metric names and their directions
(`loss` minimizes, accuracy-family metrics maximize). -/
def metric_direction_raw : String → Option Direction
  | "accuracy" => some .max
  | "binary_accuracy" => some .max
  | "categorical_accuracy" => some .max
  | "sparse_categorical_accuracy" => some .max
  | "top_k_categorical_accuracy" => some .max
  | "loss" => some .min
  | _ => Option.none

/-- Kernel-reducible `String.take` (Python `name[:n]`). -/
def strTake (s : String) (n : ℕ) : String := String.mk (s.data.take n)

/-- Kernel-reducible `String.drop` (Python `name[n:]`). -/
def strDrop (s : String) (n : ℕ) : String := String.mk (s.data.drop n)

/-- Modelled from the spec: direction lookup treating a `val_` name like the
underlying metric name. -/
def metric_direction (name : String) : Option Direction :=
  if strTake name 4 = "val_" then metric_direction_raw (strDrop name 4)
  else metric_direction_raw name

/-- Modelled from the spec: a MetricsCollection maps canonical metric names to
Metrics and remembers the name of the objective metric once one is set; the
insertion-ordered list of metrics plays the role of the underlying dict. -/
structure MetricsCollection where
  objects : List Metric
  objective_name : Option String
deriving DecidableEq

/-- Modelled from the spec: a fresh, empty collection. -/
def MetricsCollection.empty : MetricsCollection :=
  { objects := [], objective_name := Option.none }

/-- Whether a metric with exactly this (already canonicalized) name is
present. -/
def MetricsCollection.has_name (mc : MetricsCollection) (n : String) : Bool :=
  mc.objects.any (fun m => m.name = n)

/-- Modelled from the spec: `get` resolves the requested name through the
alias table and returns the stored metric, if any. -/
def MetricsCollection.get (mc : MetricsCollection) (name : String) :
    Option Metric :=
  mc.objects.find? (fun m => m.name = replace_alias name)

/-- Modelled from the spec: adding by metric name resolves aliases, rejects
unrecognized names and duplicates with a `ValueError`, and stores a fresh
metric whose direction is inferred from the name. -/
def MetricsCollection.add_name (mc : MetricsCollection) (name : String) :
    Except PyErr MetricsCollection :=
  let n := replace_alias name
  match metric_direction n with
  | Option.none => .error (.valueError "unknown metric name")
  | some d =>
    if mc.has_name n then .error (.valueError "duplicate metric name")
    else .ok { mc with objects := mc.objects ++ [⟨n, d, [], false⟩] }

/-- Modelled from the spec: adding a Metric object stores it under its own
name, rejecting duplicates with a `ValueError`. -/
def MetricsCollection.add_metric (mc : MetricsCollection) (m : Metric) :
    Except PyErr MetricsCollection :=
  if mc.has_name m.name then .error (.valueError "duplicate metric name")
  else .ok { mc with objects := mc.objects ++ [m] }

/-- Update the first metric with the given canonical name, returning
`Metric.update`'s improvement flag (`false` if no metric matches, leaving
the list unchanged). -/
def updateFirst (n : String) (q : ℚ) : List Metric → Bool × List Metric
  | [] => (false, [])
  | m :: ms =>
    if m.name = n then
      let r := m.update q
      (r.1, r.2 :: ms)
    else
      let r := updateFirst n q ms
      (r.1, m :: r.2)

/-- Modelled from the spec: `update(name, value)` resolves the alias, lets the
named metric record `float(value)` and returns whether the metric improved. -/
def MetricsCollection.update (mc : MetricsCollection) (name : String)
    (value : PNum) : Bool × MetricsCollection :=
  let r := updateFirst (replace_alias name) (pyFloatNum value) mc.objects
  (r.1, { mc with objects := r.2 })

/-- Modelled from the spec: objective-name resolution. The requested name is
canonicalized through the alias table; if no such metric exists and the
canonical name is `accuracy` (resp. `val_accuracy`), resolution falls back to
`binary_accuracy` (resp. `val_binary_accuracy`) when that metric is present;
otherwise resolution fails. -/
def resolve_objective_name (mc : MetricsCollection) (name : String) :
    Option String :=
  let n := replace_alias name
  if mc.has_name n then some n
  else if n = "accuracy" && mc.has_name "binary_accuracy" then
    some "binary_accuracy"
  else if n = "val_accuracy" && mc.has_name "val_binary_accuracy" then
    some "val_binary_accuracy"
  else Option.none

/-- Modelled from the spec: `set_objective` resolves the requested name
(raising `ValueError` when it resolves to no metric of the collection), raises
`ValueError` when an objective was already set, and otherwise marks the
resolved metric as the objective. -/
def MetricsCollection.set_objective (mc : MetricsCollection) (name : String) :
    Except PyErr MetricsCollection :=
  match resolve_objective_name mc name with
  | Option.none => .error (.valueError "objective not part of the collection")
  | some n =>
    if mc.objective_name.isSome then
      .error (.valueError "objective already set")
    else
      .ok { objects := mc.objects.map
              (fun m => if m.name = n then { m with is_objective := true }
                        else m),
            objective_name := some n }

/-- Name-based order used by `to_list` (metrics are reported sorted by
name). -/
def metricLE (a b : Metric) : Prop := a.name ≤ b.name

instance : DecidableRel metricLE :=
  fun a b => inferInstanceAs (Decidable (a.name ≤ b.name))

instance : IsTotal Metric metricLE :=
  ⟨fun a b => le_total a.name b.name⟩

instance : IsTrans Metric metricLE :=
  ⟨fun _ _ _ h1 h2 => le_trans h1 h2⟩

/-- Modelled from the spec: the metrics of the collection, sorted by name. -/
def MetricsCollection.to_list (mc : MetricsCollection) : List Metric :=
  List.insertionSort metricLE mc.objects

/-- Modelled from the spec: the serialized form of one metric - its name,
direction, recorded history and objective flag. -/
structure MetricConfig where
  name : String
  direction : Direction
  history : List ℚ
  is_objective : Bool
deriving DecidableEq

/-- Modelled from the spec: `Metric.to_config`. -/
def Metric.to_config (m : Metric) : MetricConfig :=
  ⟨m.name, m.direction, m.history, m.is_objective⟩

/-- Modelled from the spec: `Metric.from_config`; with `with_values = false`
the recorded history is dropped. -/
def Metric.from_config (c : MetricConfig) (with_values : Bool) : Metric :=
  ⟨c.name, c.direction, if with_values then c.history else [], c.is_objective⟩

/-- Modelled from the spec: `MetricsCollection.to_config` serializes the
metrics sorted by name. -/
def MetricsCollection.to_config (mc : MetricsCollection) : List MetricConfig :=
  mc.to_list.map Metric.to_config

/-- Objective name after replaying a config list: the name of the last config
flagged as objective, if any. -/
def obj_after (o : Option String) : List MetricConfig → Option String
  | [] => o
  | c :: cs => obj_after (if c.is_objective then some c.name else o) cs

/-- Helper for `from_config`: add each deserialized metric in order, marking
the collection's objective when a config carries the objective flag. -/
def fromConfigAux (with_values : Bool) :
    List MetricConfig → MetricsCollection → Except PyErr MetricsCollection
  | [], mc => .ok mc
  | c :: cs, mc =>
    let metric := Metric.from_config c with_values
    match mc.add_metric metric with
    | .error e => .error e
    | .ok mc1 =>
      fromConfigAux with_values cs
        (if metric.is_objective then { mc1 with objective_name := some metric.name }
         else mc1)

/-- Modelled from the spec: `MetricsCollection.from_config` rebuilds a
collection from a serialized config list. -/
def MetricsCollection.from_config (config : List MetricConfig)
    (with_values : Bool) : Except PyErr MetricsCollection :=
  fromConfigAux with_values config MetricsCollection.empty

/-- String rendering of a direction as stored in a config. -/
def directionStr : Direction → String
  | .min => "min"
  | .max => "max"

/-- The Python value `json.dumps` sees for one metric config: a dict of the
metric's name, direction, history (a list of floats, since `update` coerces
every value with `float()`) and objective flag. -/
def MetricConfig.to_pval (c : MetricConfig) : PVal :=
  .pdict (.cons "name" (.pstr c.name)
    (.cons "direction" (.pstr (directionStr c.direction))
      (.cons "history" (.plist (PList.ofList (c.history.map PVal.pflt)))
        (.cons "is_objective" (.pbool c.is_objective) .nil))))

/-- The Python value `json.dumps` sees for a whole collection config: the list
of per-metric dicts. -/
def config_pval (cfg : List MetricConfig) : PVal :=
  .plist (PList.ofList (cfg.map MetricConfig.to_pval))

/-- Well-formedness of a collection state: metric names are pairwise distinct,
a metric is flagged as objective exactly when the collection's objective name
is its name, and the objective name (when set) belongs to a stored metric. -/
def WF (mc : MetricsCollection) : Prop :=
  mc.objects.Pairwise (fun a b => a.name ≠ b.name) ∧
  (∀ m ∈ mc.objects, m.is_objective = true ↔ mc.objective_name = some m.name) ∧
  (mc.objective_name = Option.none ∨
    ∃ m ∈ mc.objects, mc.objective_name = some m.name)

/-- The user-facing mutating operations of a MetricsCollection: adding by
name, adding a freshly constructed Metric object, updating a value, and
setting the objective. -/
inductive MCOp where
  | addName (n : String)
  | addMetric (n : String) (d : Direction)
  | update (n : String) (v : PNum)
  | setObjective (n : String)

/-- Apply one operation; a raised `ValueError` propagates to the caller and
leaves the collection as it was. -/
def applyOp (mc : MetricsCollection) : MCOp → MetricsCollection
  | .addName n =>
    match mc.add_name n with
    | .ok mc2 => mc2
    | .error _ => mc
  | .addMetric n d =>
    match mc.add_metric ⟨n, d, [], false⟩ with
    | .ok mc2 => mc2
    | .error _ => mc
  | .update n v => (mc.update n v).2
  | .setObjective n =>
    match mc.set_objective n with
    | .ok mc2 => mc2
    | .error _ => mc

/-- Replay a list of operations against a fresh collection. -/
def runOps (ops : List MCOp) : MetricsCollection :=
  ops.foldl applyOp MetricsCollection.empty

/- ---------------------------------------------------------------------------
RandomDistributions, from
`src/kerastuner/distributions/randomdistributions/randomdistributions.py`.
The random generator is embedded by threading the index `k` that
`random.choice` would draw (uniformly over the sequence's positions), and the
hyperparameter register of the base `Distributions` class is threaded as an
explicit `DistState`.
--------------------------------------------------------------------------- -/

/-- The recorded hyperparameters, keyed by (group, name). -/
structure DistState where
  recorded : List ((String × String) × PVal)

/-- Modelled from the spec: `Distributions._record_hyperparameter` (the base
class lives outside the provided sources) stores the drawn value under its
name/group key, overwriting any previous entry for that key. -/
def record_hyperparameter (name : String) (value : PVal) (group : String)
    (st : DistState) : DistState :=
  { recorded := ((group, name), value) ::
      st.recorded.filter (fun e => !decide (e.1 = (group, name))) }

/-- Value recorded under a name/group key, if any. -/
def DistState.lookup (st : DistState) (name group : String) : Option PVal :=
  (st.recorded.find? (fun e => decide (e.1 = (group, name)))).map
    (fun e => e.2)

/-- Model of `random.choice(seq)`: the RNG draws a position uniformly; the
drawn index `k` is threaded explicitly and reduced modulo the length. An empty
sequence raises `IndexError`. -/
def pyChoice {α : Type} (l : List α) (k : ℕ) : Except PyErr α :=
  if h : l.length = 0 then .error .indexError
  else .ok (l.get ⟨k % l.length, Nat.mod_lt _ (Nat.pos_of_ne_zero h)⟩)

/-- Python `isinstance(v, int)`: ints and booleans (bool subclasses int). -/
def isinst_int : PVal → Bool
  | .pint _ => true
  | .pbool _ => true
  | _ => false

/-- Python `isinstance(v, float)`: builtin floats only (a numpy float32
scalar is not an instance of the builtin float). -/
def isinst_flt : PVal → Bool
  | .pflt _ => true
  | _ => false

/-- Python `isinstance(v, str)`. -/
def isinst_str : PVal → Bool
  | .pstr _ => true
  | _ => false

/-- Python builtin `int()`: ints unchanged, floats truncated toward zero,
booleans to 0/1, decimal strings parsed (other strings raise `ValueError`);
remaining argument kinds raise `TypeError`. -/
def pyIntFn : PVal → Except PyErr PVal
  | .pint z => .ok (.pint z)
  | .pbool b => .ok (.pint (if b then 1 else 0))
  | .pflt q => .ok (.pint (pyTrunc q))
  | .pnp q => .ok (.pint (pyTrunc q))
  | .pstr s =>
    match s.toInt? with
    | some z => .ok (.pint z)
    | Option.none => .error (.valueError "invalid literal for int")
  | _ => .error .typeError

/-- Python builtin `float()`: numeric values to float, numeric strings parsed
(modelled for integer literals), others raise. -/
def pyFloatFn : PVal → Except PyErr PVal
  | .pint z => .ok (.pflt (z : ℚ))
  | .pbool b => .ok (.pflt (if b then 1 else 0))
  | .pflt q => .ok (.pflt q)
  | .pnp q => .ok (.pflt q)
  | .pstr s =>
    match s.toInt? with
    | some z => .ok (.pflt (z : ℚ))
    | Option.none => .error (.valueError "could not convert string to float")
  | _ => .error .typeError

/-- Python builtin `str()` on the values this module feeds it; the rational
rendering stands in for Python's numeric formatting (never compared in the
theorems below). -/
def pyStrFn : PVal → PVal
  | .pstr s => .pstr s
  | .pbool b => .pstr (if b then "True" else "False")
  | .pint z => .pstr (toString z)
  | .pflt q => .pstr (toString q)
  | .pnp q => .pstr (toString q)
  | .pnone => .pstr "None"
  | _ => .pstr "object"

/-- The cast `Choice` applies to the drawn value, chosen by the type of
`selection[0]`; for head types other than int/float/str the source builds
`Exception('unknown type')` but never raises it, so the drawn value passes
through unchanged. -/
def choiceCast (hd v : PVal) : Except PyErr PVal :=
  if isinst_int hd then pyIntFn v
  else if isinst_flt hd then pyFloatFn v
  else if isinst_str hd then .ok (pyStrFn v)
  else .ok v

/-- `list(range(a, b, c))` for integer arguments. -/
def pyRangeInts (a b c : ℤ) : List ℤ :=
  let n : ℕ :=
    if c > 0 then (Int.ediv (b - a + c - 1) c).toNat
    else (Int.ediv (a - b + (-c) - 1) (-c)).toNat
  (List.range n).map (fun i => a + c * (i : ℤ))

/-- Python `range(start, stop, increment)`: rejects non-integer arguments with
`TypeError` (booleans, being ints, are accepted) and a zero increment with
`ValueError`. -/
def pyRangeList : PVal → PVal → PVal → Except PyErr (List ℤ)
  | .pint a, .pint b, .pint c =>
    if c = 0 then .error (.valueError "range() arg 3 must not be zero")
    else .ok (pyRangeInts a b c)
  | _, _, _ => .error .typeError

/-- Python `round(x, p)`: round half to even at the `p`-th decimal. -/
def pyRound (q : ℚ) (p : ℕ) : ℚ :=
  let m := q * (10 : ℚ) ^ p
  let f : ℤ := m.floor
  let frac := m - (f : ℚ)
  let r : ℤ :=
    if frac > 1/2 then f + 1
    else if frac < 1/2 then f
    else if f % 2 = 0 then f else f + 1
  (r : ℚ) / (10 : ℚ) ^ p

namespace RandomDistributions

/-- `RandomDistributions.Fixed` (lines 34-44): record and return the fixed
value. -/
def Fixed (name : String) (value : PVal) (group : String) (st : DistState) :
    PVal × DistState :=
  (value, record_hyperparameter name value group st)

/-- `RandomDistributions.Boolean` (lines 46-56): draw from
`[False, True]`, record and return. -/
def Boolean (name : String) (group : String) (k : ℕ) (st : DistState) :
    Except PyErr (PVal × DistState) :=
  match pyChoice [false, true] k with
  | .error e => .error e
  | .ok b => .ok (.pbool b, record_hyperparameter name (.pbool b) group st)

/-- `RandomDistributions.Choice` (lines 58-77): draw
`value = random.choice(selection)`, cast it according to the type of
`selection[0]`, record the cast value and return it. -/
def Choice (name : String) (selection : List PVal) (group : String) (k : ℕ)
    (st : DistState) : Except PyErr (PVal × DistState) :=
  match pyChoice selection k with
  | .error e => .error e
  | .ok v0 =>
    match selection.head? with
    | Option.none => .error .indexError
    | some hd =>
      match choiceCast hd v0 with
      | .error e => .error e
      | .ok value => .ok (value, record_hyperparameter name value group st)

/-- `RandomDistributions.Range` (lines 79-92):
`my_range = list(range(start, stop, increment))`, draw
`value = random.choice(my_range)`, record and return it. -/
def Range (name : String) (start stop increment : PVal) (group : String)
    (k : ℕ) (st : DistState) : Except PyErr (PVal × DistState) :=
  match pyRangeList start stop increment with
  | .error e => .error e
  | .ok my_range =>
    match pyChoice my_range k with
    | .error e => .error e
    | .ok value =>
      .ok (.pint value, record_hyperparameter name (.pint value) group st)

/-- `RandomDistributions.Logarithmic` (lines 94-110):
`my_range = logspace(start, stop, num_buckets)`, draw an element, record and
return it. `logspace` is numpy's (an external library), so it is taken as a
parameter; note that the `precision` argument is accepted but never used by
the source. -/
def Logarithmic (logspace : ℚ → ℚ → ℕ → List ℚ) (name : String)
    (start stop : ℚ) (num_buckets : ℕ) (precision : ℕ) (group : String)
    (k : ℕ) (st : DistState) : Except PyErr (PVal × DistState) :=
  let my_range := logspace start stop num_buckets
  let _ := precision
  match pyChoice my_range k with
  | .error e => .error e
  | .ok value =>
    .ok (.pflt value, record_hyperparameter name (.pflt value) group st)

/-- `RandomDistributions.Linear` (lines 112-130):
`my_range = linspace(start, stop, num_buckets)`, draw an element, round it to
`precision` decimals when `precision` is truthy (nonzero), record and return
it. `linspace` is numpy's (an external library), so it is taken as a
parameter. -/
def Linear (linspace : ℚ → ℚ → ℕ → List ℚ) (name : String) (start stop : ℚ)
    (num_buckets : ℕ) (precision : ℕ) (group : String) (k : ℕ)
    (st : DistState) : Except PyErr (PVal × DistState) :=
  let my_range := linspace start stop num_buckets
  match pyChoice my_range k with
  | .error e => .error e
  | .ok v0 =>
    let value := if precision ≠ 0 then pyRound v0 precision else v0
    .ok (.pflt value, record_hyperparameter name (.pflt value) group st)

end RandomDistributions

/- ---------------------------------------------------------------------------
Instance.fit size bookkeeping, from `src/kerastuner/engine/instance.py`
lines 54-89. Only the state updates decided by the claims are embedded; the
delegated training work belongs to the external framework.
--------------------------------------------------------------------------- -/

/-- The training data passed to `Instance.fit`: either a
`tf.keras.utils.Sequence` (whose `len` is a number of batches) or an
array-like (whose `len` is the number of samples). -/
inductive XData where
  | seq (n : ℕ)
  | arr (n : ℕ)

/-- The keyword arguments of `Instance.fit` that the size bookkeeping reads.
`validation_data` is embedded as the length of `validation_data[1]` when a
truthy value was passed (`Option.none` for absent or falsy);
`validation_split = some 0` models an explicit falsy split value. -/
structure FitKwargs where
  batch_size : Option ℚ
  validation_data : Option ℕ
  validation_split : Option ℚ

/-- The fields of `InstanceState` that `Instance.fit` lines 54-89 assign. -/
structure FitState where
  batch_size : ℚ
  training_size : ℤ
  validation_size : ℤ
deriving DecidableEq

/-- `Instance.fit` lines 65-89: `batch_size = kwargs.get('batch_size', 32)`;
`training_size = (len(x) + 2) * batch_size` for a Sequence and `len(x)`
otherwise; then `validation_size = len(validation_data[1])` when truthy
validation data is given, else for a truthy `validation_split` the float
`val_size = training_size * validation_split` is stored and subtracted from
`training_size` before both are truncated with `int(...)`, and otherwise
`validation_size = 0`. -/
def Instance.fit_sizes (x : XData) (kw : FitKwargs) : FitState :=
  let batch_size : ℚ := kw.batch_size.getD 32
  let training_size : ℚ :=
    match x with
    | .seq n => ((n : ℚ) + 2) * batch_size
    | .arr n => (n : ℚ)
  match kw.validation_data with
  | some vlen =>
    { batch_size := batch_size,
      training_size := pyTrunc training_size,
      validation_size := (vlen : ℤ) }
  | Option.none =>
    match kw.validation_split with
    | some s =>
      if s = 0 then
        { batch_size := batch_size,
          training_size := pyTrunc training_size,
          validation_size := 0 }
      else
        let val_size := training_size * s
        { batch_size := batch_size,
          training_size := pyTrunc (training_size - val_size),
          validation_size := pyTrunc val_size }
    | Option.none =>
      { batch_size := batch_size,
        training_size := pyTrunc training_size,
        validation_size := 0 }

/- ---------------------------------------------------------------------------
Supporting lemmas.
--------------------------------------------------------------------------- -/

attribute [local semireducible] Rat.add Rat.sub Rat.mul Rat.inv

/-- The best value of a history is one of its entries and extremal for the
direction: a lower bound of the history for `min`, an upper bound for
`max`. -/
theorem bestOf_spec {d : Direction} :
    ∀ {h : List ℚ} {b : ℚ}, bestOf d h = some b →
      b ∈ h ∧ ∀ w ∈ h, (d = .min → b ≤ w) ∧ (d = .max → w ≤ b) := by
  intro h
  induction h with
  | nil => intro b hb; simp [bestOf] at hb
  | cons v vs ih =>
    intro b hb
    rw [bestOf] at hb
    have hb2 := Option.some.inj hb
    rcases hvs : bestOf d vs with _ | c
    · rw [hvs] at hb2
      cases vs with
      | cons w ws => rw [bestOf] at hvs; exact absurd hvs (by simp)
      | nil =>
        subst hb2
        refine ⟨List.mem_cons_self _ _, ?_⟩
        intro w hw
        rcases List.mem_cons.mp hw with hww | hww
        · subst hww; exact ⟨fun _ => le_rfl, fun _ => le_rfl⟩
        · simp at hww
    · rw [hvs] at hb2
      have ihc := ih hvs
      cases d with
      | min =>
        simp only at hb2
        subst hb2
        constructor
        · rcases min_choice v c with hm | hm <;> rw [hm]
          · exact List.mem_cons_self _ _
          · exact List.mem_cons_of_mem _ ihc.1
        · intro w hw
          rcases List.mem_cons.mp hw with hww | hww
          · subst hww
            exact ⟨fun _ => min_le_left _ _, fun hx => Direction.noConfusion hx⟩
          · refine ⟨fun _ => ?_, fun hx => Direction.noConfusion hx⟩
            exact le_trans (min_le_right _ _) ((ihc.2 w hww).1 rfl)
      | max =>
        simp only at hb2
        subst hb2
        constructor
        · rcases max_choice v c with hm | hm <;> rw [hm]
          · exact List.mem_cons_self _ _
          · exact List.mem_cons_of_mem _ ihc.1
        · intro w hw
          rcases List.mem_cons.mp hw with hww | hww
          · subst hww
            exact ⟨fun hx => Direction.noConfusion hx, fun _ => le_max_left _ _⟩
          · refine ⟨fun hx => Direction.noConfusion hx, fun _ => ?_⟩
            exact le_trans ((ihc.2 w hww).2 rfl) (le_max_right _ _)

/-- A non-empty history always has a best value. -/
theorem bestOf_isSome (d : Direction) (v : ℚ) (vs : List ℚ) :
    ∃ b, bestOf d (v :: vs) = some b :=
  ⟨_, by rw [bestOf]⟩

/-- `updateFirst` acts on the metric that `find?` locates: it returns that
metric's improvement flag and afterwards `find?` locates that metric's updated
version. -/
theorem updateFirst_find (n : String) (q : ℚ) :
    ∀ (l : List Metric) (m : Metric),
      l.find? (fun x => x.name = n) = some m →
      (updateFirst n q l).1 = (m.update q).1 ∧
      (updateFirst n q l).2.find? (fun x => x.name = n) =
        some (m.update q).2 := by
  intro l
  induction l with
  | nil => intro m hm; simp at hm
  | cons x xs ih =>
    intro m hm
    by_cases hx : x.name = n
    · rw [List.find?_cons_of_pos _ (by simpa using hx)] at hm
      cases Option.some.inj hm
      simp only [updateFirst, if_pos hx]
      constructor
      · trivial
      · rw [List.find?_cons_of_pos]
        simpa using hx
    · rw [List.find?_cons_of_neg _ (by simpa using hx)] at hm
      have hih := ih m hm
      simp only [updateFirst, if_neg hx]
      refine ⟨hih.1, ?_⟩
      rw [List.find?_cons_of_neg _ (by simpa using hx)]
      exact hih.2

/- ---------------------------------------------------------------------------
C1 and C8: update semantics.
--------------------------------------------------------------------------- -/

/-- C1: for every metric present in a MetricsCollection, `update(name, value)`
compares the value against the metric's running best according to its
direction and returns `True` exactly when the value improves on the running
best - strictly lower than every recorded value for direction `min`, strictly
higher for direction `max`; after the call, `get_best_value` returns the best
value seen so far per that direction (an extremal element of the recorded
history) and `get_last_value` returns the most recently updated value. -/
theorem update_returns_improvement (mc : MetricsCollection) (name : String)
    (m : Metric) (v : ℚ) (hget : mc.get name = some m) :
    (m.history ≠ [] →
      ((mc.update name (.flt v)).1 = true ↔
        ∀ w ∈ m.history,
          match m.direction with
          | .min => v < w
          | .max => w < v)) ∧
    ∃ m2, (mc.update name (.flt v)).2.get name = some m2 ∧
      m2.get_last_value = some v ∧
      m2.history = m.history ++ [v] ∧
      ∃ b, m2.get_best_value = some b ∧ b ∈ m2.history ∧
        ∀ w ∈ m2.history,
          (m2.direction = .min → b ≤ w) ∧ (m2.direction = .max → w ≤ b) := by
  have huf := updateFirst_find (replace_alias name) v mc.objects m hget
  constructor
  · intro hne
    obtain ⟨v0, vs, hvv⟩ : ∃ v0 vs, m.history = v0 :: vs := by
      cases hh : m.history with
      | nil => exact absurd hh hne
      | cons a as => exact ⟨a, as, rfl⟩
    obtain ⟨b, hb⟩ := bestOf_isSome m.direction v0 vs
    have hbest : bestOf m.direction m.history = some b := by
      rw [hvv]; exact hb
    have hspec := bestOf_spec hbest
    have h1 : (mc.update name (.flt v)).1 =
        (match bestOf m.direction m.history, m.direction with
         | Option.none, _ => true
         | some c, .min => decide (v < c)
         | some c, .max => decide (c < v)) := huf.1
    rw [h1, hbest]
    cases hd : m.direction with
    | min =>
      simp only [decide_eq_true_eq]
      constructor
      · intro hvb w hw
        exact lt_of_lt_of_le hvb ((hspec.2 w hw).1 hd)
      · intro hall
        exact hall b hspec.1
    | max =>
      simp only [decide_eq_true_eq]
      constructor
      · intro hvb w hw
        exact lt_of_le_of_lt ((hspec.2 w hw).2 hd) hvb
      · intro hall
        exact hall b hspec.1
  · refine ⟨(m.update v).2, huf.2, ?_, rfl, ?_⟩
    · exact List.getLast?_concat _
    · obtain ⟨v0, vs, hvv⟩ : ∃ v0 vs, m.history ++ [v] = v0 :: vs := by
        cases hh : m.history ++ [v] with
        | nil => exact absurd hh (by simp)
        | cons a as => exact ⟨a, as, rfl⟩
      obtain ⟨b, hb⟩ := bestOf_isSome m.direction v0 vs
      have hbest : bestOf m.direction (m.history ++ [v]) = some b := by
        rw [hvv]; exact hb
      have hspec := bestOf_spec hbest
      exact ⟨b, hbest, hspec.1, hspec.2⟩

/-- C1 witness: on a collection holding `loss` (direction `min`) with history
`[10]`, updating with `5` reports an improvement. -/
theorem update_returns_improvement_witness :
    ((MetricsCollection.mk [⟨"loss", Direction.min, [10], false⟩]
        Option.none).update "loss" (.flt 5)).1 = true := by
  have h := update_returns_improvement
    (MetricsCollection.mk [⟨"loss", Direction.min, [10], false⟩] Option.none)
    "loss" ⟨"loss", Direction.min, [10], false⟩ 5 (by decide)
  exact (h.1 (by decide)).mpr (by decide)

/-- C8: for a metric whose history is still empty (as it is right after being
added), the first `update` returns `True` regardless of the direction and
regardless of the value supplied. -/
theorem first_update_improves (mc : MetricsCollection) (name : String)
    (m : Metric) (v : PNum) (hget : mc.get name = some m)
    (hh : m.history = []) : (mc.update name v).1 = true := by
  have huf := updateFirst_find (replace_alias name) (pyFloatNum v) mc.objects
    m hget
  have h1 : (mc.update name v).1 = (m.update (pyFloatNum v)).1 := huf.1
  have h2 : m.get_best_value = Option.none := by
    rw [Metric.get_best_value, hh]; rfl
  rw [h1]
  simp [Metric.update, h2]

/-- C8 witness: the first update of a fresh `accuracy` metric (direction
`max`) with an arbitrary value returns `True`. -/
theorem first_update_improves_witness :
    ((MetricsCollection.mk [⟨"accuracy", Direction.max, [], false⟩]
        Option.none).update "accuracy" (.flt 100)).1 = true :=
  first_update_improves _ "accuracy" ⟨"accuracy", Direction.max, [], false⟩
    (.flt 100) (by decide) rfl

/- ---------------------------------------------------------------------------
C2 and C4: alias resolution and validation errors.
--------------------------------------------------------------------------- -/

/-- Alias resolution is idempotent: canonical names are not aliases. -/
theorem replace_alias_idem (n : String) :
    replace_alias (replace_alias n) = replace_alias n := by
  unfold replace_alias
  split_ifs <;> simp_all

/-- An absent (already canonical) name is found by `find?` nowhere. -/
theorem has_name_false_find (mc : MetricsCollection) (n : String)
    (h : mc.has_name n = false) :
    mc.objects.find? (fun x => x.name = n) = Option.none := by
  rw [List.find?_eq_none]
  exact List.any_eq_false.mp h

/-- `get` succeeding on a canonical name means the name is present. -/
theorem get_isSome_has_name (mc : MetricsCollection) (n : String)
    (hn : replace_alias n = n) (h : (mc.get n).isSome = true) :
    mc.has_name n = true := by
  rw [MetricsCollection.get, hn] at h
  rw [MetricsCollection.has_name, List.any_eq_true]
  exact List.find?_isSome.mp h

/-- `get` failing on a canonical name means the name is absent. -/
theorem get_none_has_name (mc : MetricsCollection) (n : String)
    (hn : replace_alias n = n) (h : mc.get n = Option.none) :
    mc.has_name n = false := by
  rw [MetricsCollection.get, hn] at h
  rw [MetricsCollection.has_name, List.any_eq_false]
  exact List.find?_eq_none.mp h

/-- C2: metric names pass through the fixed alias map before every `add`,
`get`, `update` and `set_objective` (`acc` canonicalizes to `accuracy`,
`val_acc` to `val_accuracy`), so adding under an alias and retrieving under
the canonical name - or vice versa - yields the same Metric; moreover, when
the canonical `accuracy`/`val_accuracy` name is absent, objective resolution
for `acc`/`val_acc` falls back to `binary_accuracy`/`val_binary_accuracy`
when that metric is present, and `set_objective` fails with a `ValueError`
when neither is present. -/
theorem alias_resolution (mc : MetricsCollection) :
    (replace_alias "acc" = "accuracy" ∧
      replace_alias "val_acc" = "val_accuracy") ∧
    (∀ name, mc.get name = mc.get (replace_alias name)) ∧
    (∀ name v, mc.update name v = mc.update (replace_alias name) v) ∧
    (∀ name, mc.set_objective name = mc.set_objective (replace_alias name)) ∧
    (∀ name mc2, mc.add_name name = .ok mc2 →
      ∃ mm, mc2.get name = some mm ∧
        mc2.get (replace_alias name) = some mm ∧
        mm.name = replace_alias name) ∧
    (mc.get "accuracy" = Option.none → (mc.get "binary_accuracy").isSome = true →
      resolve_objective_name mc "acc" = some "binary_accuracy") ∧
    (mc.get "accuracy" = Option.none → mc.get "binary_accuracy" = Option.none →
      ∃ s, mc.set_objective "acc" = .error (.valueError s)) ∧
    (mc.get "val_accuracy" = Option.none →
      (mc.get "val_binary_accuracy").isSome = true →
      resolve_objective_name mc "val_acc" = some "val_binary_accuracy") ∧
    (mc.get "val_accuracy" = Option.none →
      mc.get "val_binary_accuracy" = Option.none →
      ∃ s, mc.set_objective "val_acc" = .error (.valueError s)) := by
  refine ⟨⟨by decide, by decide⟩, ?_, ?_, ?_, ?_, ?_, ?_, ?_, ?_⟩
  · intro name
    simp only [MetricsCollection.get, replace_alias_idem]
  · intro name v
    simp only [MetricsCollection.update, replace_alias_idem]
  · intro name
    simp only [MetricsCollection.set_objective, resolve_objective_name,
      replace_alias_idem]
  · intro name mc2 hadd
    simp only [MetricsCollection.add_name] at hadd
    rcases hdir : metric_direction (replace_alias name) with _ | d <;>
      rw [hdir] at hadd <;> dsimp only at hadd
    · exact absurd hadd (by simp)
    · by_cases hhn : mc.has_name (replace_alias name) = true
      · rw [if_pos hhn] at hadd
        exact absurd hadd (by simp)
      · rw [if_neg hhn] at hadd
        have hmc2 := (Except.ok.inj hadd).symm
        subst hmc2
        have hnone := has_name_false_find mc (replace_alias name)
          (Bool.eq_false_iff.mpr hhn)
        refine ⟨⟨replace_alias name, d, [], false⟩, ?_, ?_, rfl⟩
        · show (mc.objects ++
              [(⟨replace_alias name, d, [], false⟩ : Metric)]).find?
            (fun x => x.name = replace_alias name) = _
          rw [List.find?_append, hnone]
          simp
        · show (mc.objects ++
              [(⟨replace_alias name, d, [], false⟩ : Metric)]).find?
            (fun x => x.name = replace_alias (replace_alias name)) = _
          rw [replace_alias_idem, List.find?_append, hnone]
          simp
  · intro hacc hbin
    have h1 := get_none_has_name mc "accuracy" (by decide) hacc
    have h2 := get_isSome_has_name mc "binary_accuracy" (by decide) hbin
    simp [resolve_objective_name, replace_alias, h1, h2]
  · intro hacc hbin
    have h1 := get_none_has_name mc "accuracy" (by decide) hacc
    have h2 := get_none_has_name mc "binary_accuracy" (by decide) hbin
    have hres : resolve_objective_name mc "acc" = Option.none := by
      simp [resolve_objective_name, replace_alias, h1, h2]
    exact ⟨"objective not part of the collection",
      by simp [MetricsCollection.set_objective, hres]⟩
  · intro hacc hbin
    have h1 := get_none_has_name mc "val_accuracy" (by decide) hacc
    have h2 := get_isSome_has_name mc "val_binary_accuracy" (by decide) hbin
    simp [resolve_objective_name, replace_alias, h1, h2]
  · intro hacc hbin
    have h1 := get_none_has_name mc "val_accuracy" (by decide) hacc
    have h2 := get_none_has_name mc "val_binary_accuracy" (by decide) hbin
    have hres : resolve_objective_name mc "val_acc" = Option.none := by
      simp [resolve_objective_name, replace_alias, h1, h2]
    exact ⟨"objective not part of the collection",
      by simp [MetricsCollection.set_objective, hres]⟩

/-- C2 witness: adding `acc` stores the metric under `accuracy` and both
names retrieve it; with only `binary_accuracy` present, objective resolution
for `acc` falls back to it; with only `val_binary_accuracy` present,
`set_objective('acc')` raises a `ValueError`. -/
theorem alias_resolution_witness :
    (∃ mm, (MetricsCollection.mk [⟨"accuracy", Direction.max, [], false⟩]
        Option.none).get "acc" = some mm ∧
      (MetricsCollection.mk [⟨"accuracy", Direction.max, [], false⟩]
        Option.none).get "accuracy" = some mm ∧ mm.name = "accuracy") ∧
    resolve_objective_name
      (MetricsCollection.mk [⟨"binary_accuracy", Direction.max, [], false⟩]
        Option.none) "acc" = some "binary_accuracy" ∧
    ∃ s, (MetricsCollection.mk
        [⟨"val_binary_accuracy", Direction.max, [], false⟩]
        Option.none).set_objective "acc" = .error (.valueError s) := by
  refine ⟨?_, ?_, ?_⟩
  · exact (alias_resolution MetricsCollection.empty).2.2.2.2.1 "acc"
      (MetricsCollection.mk [⟨"accuracy", Direction.max, [], false⟩]
        Option.none) (by decide)
  · exact (alias_resolution _).2.2.2.2.2.1 (by decide) (by decide)
  · exact (alias_resolution _).2.2.2.2.2.2.1 (by decide) (by decide)

/-- C4: validation failures raise `ValueError` at the call site: adding a
metric under an unrecognized name, adding a metric whose canonicalized name
is already present, and setting an objective that resolves to no metric of
the collection all return a `ValueError` (and, the operations being
functional on the collection value, leave the collection unchanged). -/
theorem validation_value_errors (mc : MetricsCollection) (name : String) :
    (metric_direction (replace_alias name) = Option.none →
      ∃ s, mc.add_name name = .error (.valueError s)) ∧
    ((mc.get name).isSome = true →
      ∃ s, mc.add_name name = .error (.valueError s)) ∧
    (resolve_objective_name mc name = Option.none →
      ∃ s, mc.set_objective name = .error (.valueError s)) := by
  refine ⟨?_, ?_, ?_⟩
  · intro h
    exact ⟨"unknown metric name", by simp [MetricsCollection.add_name, h]⟩
  · intro h
    rcases hdir : metric_direction (replace_alias name) with _ | d
    · exact ⟨"unknown metric name",
        by simp [MetricsCollection.add_name, hdir]⟩
    · have hhn : mc.has_name (replace_alias name) = true := by
        rw [MetricsCollection.get] at h
        rw [MetricsCollection.has_name, List.any_eq_true]
        exact List.find?_isSome.mp h
      exact ⟨"duplicate metric name",
        by simp [MetricsCollection.add_name, hdir, hhn]⟩
  · intro h
    exact ⟨"objective not part of the collection",
      by simp [MetricsCollection.set_objective, h]⟩

/-- C4 witness: `add('invalid')` on an empty collection, `add('loss')` on a
collection already holding `loss`, and `set_objective('3713')` on an empty
collection each raise a `ValueError`. -/
theorem validation_value_errors_witness :
    (∃ s, MetricsCollection.empty.add_name "invalid" =
      .error (.valueError s)) ∧
    (∃ s, (MetricsCollection.mk [⟨"loss", Direction.min, [], false⟩]
      Option.none).add_name "loss" = .error (.valueError s)) ∧
    (∃ s, MetricsCollection.empty.set_objective "3713" =
      .error (.valueError s)) :=
  ⟨(validation_value_errors MetricsCollection.empty "invalid").1 (by decide),
    (validation_value_errors
      (MetricsCollection.mk [⟨"loss", Direction.min, [], false⟩]
        Option.none) "loss").2.1 (by decide),
    (validation_value_errors MetricsCollection.empty "3713").2.2 (by decide)⟩

/- ---------------------------------------------------------------------------
C3: the objective is set at most once.
--------------------------------------------------------------------------- -/

/-- `updateFirst` preserves every metric's name and objective flag. -/
theorem updateFirst_pointwise (n : String) (q : ℚ) :
    ∀ l : List Metric,
      ((updateFirst n q l).2).map (fun m => (m.name, m.is_objective)) =
        l.map (fun m => (m.name, m.is_objective)) := by
  intro l
  induction l with
  | nil => rfl
  | cons x xs ih =>
    by_cases hx : x.name = n
    · simp only [updateFirst, if_pos hx, List.map_cons]
      rfl
    · simp only [updateFirst, if_neg hx, List.map_cons]
      rw [ih]

/-- Name-distinctness transfers along equality of (name, flag) projections. -/
theorem pairwise_of_pairs_eq {l l' : List Metric}
    (hmap : l'.map (fun m => (m.name, m.is_objective)) =
      l.map (fun m => (m.name, m.is_objective)))
    (hp : l.Pairwise (fun a b => a.name ≠ b.name)) :
    l'.Pairwise (fun a b => a.name ≠ b.name) := by
  have h1 : (l.map (fun m => (m.name, m.is_objective))).Pairwise
      (fun a b => a.1 ≠ b.1) := List.pairwise_map.mpr (by simpa using hp)
  rw [← hmap] at h1
  have h2 := List.pairwise_map.mp h1
  simpa using h2

/-- Membership transfers along equality of (name, flag) projections. -/
theorem mem_pairs_of_mem {l l' : List Metric}
    (hmap : l'.map (fun m => (m.name, m.is_objective)) =
      l.map (fun m => (m.name, m.is_objective)))
    {m' : Metric} (hm : m' ∈ l') :
    ∃ m ∈ l, m.name = m'.name ∧ m.is_objective = m'.is_objective := by
  have hmem : (m'.name, m'.is_objective) ∈
      l.map (fun m => (m.name, m.is_objective)) := by
    rw [← hmap]; exact List.mem_map_of_mem _ hm
  obtain ⟨m, hm2, hpair⟩ := List.mem_map.mp hmem
  exact ⟨m, hm2, (Prod.ext_iff.mp hpair).1, (Prod.ext_iff.mp hpair).2⟩

/-- Appending a fresh unflagged metric under an absent name preserves
well-formedness. -/
theorem WF_append_fresh (mc : MetricsCollection) (m0 : Metric) (h : WF mc)
    (hn : mc.has_name m0.name = false) (hflag : m0.is_objective = false) :
    WF { mc with objects := mc.objects ++ [m0] } := by
  have hnot : ∀ x ∈ mc.objects, x.name ≠ m0.name := by
    intro x hx
    have := List.any_eq_false.mp hn x hx
    simpa using this
  refine ⟨?_, ?_, ?_⟩
  · rw [List.pairwise_append]
    refine ⟨h.1, List.pairwise_singleton _ _, ?_⟩
    intro a ha b hb
    rw [List.mem_singleton.mp hb]
    exact hnot a ha
  · intro m hm
    rcases List.mem_append.mp hm with hm | hm
    · exact h.2.1 m hm
    · have hm0 : m = m0 := List.mem_singleton.mp hm
      subst hm0
      constructor
      · intro hfl
        rw [hflag] at hfl
        cases hfl
      · intro hobj
        exfalso
        rcases h.2.2 with hnone | ⟨m1, hm1, hobj1⟩
        · rw [hnone] at hobj; cases hobj
        · rw [hobj1] at hobj
          exact hnot m1 hm1 (Option.some.inj hobj)
  · rcases h.2.2 with hnone | ⟨m1, hm1, hobj1⟩
    · exact Or.inl hnone
    · exact Or.inr ⟨m1, List.mem_append_left _ hm1, hobj1⟩

/-- A successfully resolved objective name is present in the collection. -/
theorem resolve_has (mc : MetricsCollection) (name n0 : String)
    (h : resolve_objective_name mc name = some n0) :
    mc.has_name n0 = true := by
  unfold resolve_objective_name at h
  dsimp only at h
  split_ifs at h with h1 h2 h3
  · obtain rfl := Option.some.inj h
    exact h1
  · obtain rfl := Option.some.inj h
    simp only [Bool.and_eq_true] at h2
    exact h2.2
  · obtain rfl := Option.some.inj h
    simp only [Bool.and_eq_true] at h3
    exact h3.2

/-- `applyOp` with an add-by-name operation preserves well-formedness. -/
theorem WF_add_name (mc : MetricsCollection) (n : String) (h : WF mc) :
    WF (applyOp mc (.addName n)) := by
  rcases hadd : mc.add_name n with e | mc2
  · have happ : applyOp mc (.addName n) = mc := by simp [applyOp, hadd]
    rw [happ]; exact h
  · have happ : applyOp mc (.addName n) = mc2 := by simp [applyOp, hadd]
    rw [happ]
    simp only [MetricsCollection.add_name] at hadd
    rcases hdir : metric_direction (replace_alias n) with _ | d <;>
      rw [hdir] at hadd <;> dsimp only at hadd
    · cases hadd
    · by_cases hhn : mc.has_name (replace_alias n) = true
      · rw [if_pos hhn] at hadd; cases hadd
      · rw [if_neg hhn] at hadd
        obtain rfl := Except.ok.inj hadd
        exact WF_append_fresh mc ⟨replace_alias n, d, [], false⟩ h
          (Bool.eq_false_iff.mpr hhn) rfl

/-- `applyOp` with an add-metric operation preserves well-formedness. -/
theorem WF_add_metric (mc : MetricsCollection) (n : String) (d : Direction)
    (h : WF mc) : WF (applyOp mc (.addMetric n d)) := by
  rcases hadd : mc.add_metric ⟨n, d, [], false⟩ with e | mc2
  · have happ : applyOp mc (.addMetric n d) = mc := by simp [applyOp, hadd]
    rw [happ]; exact h
  · have happ : applyOp mc (.addMetric n d) = mc2 := by simp [applyOp, hadd]
    rw [happ]
    unfold MetricsCollection.add_metric at hadd
    dsimp only at hadd
    by_cases hhn : mc.has_name n = true
    · rw [if_pos hhn] at hadd; cases hadd
    · rw [if_neg hhn] at hadd
      obtain rfl := Except.ok.inj hadd
      exact WF_append_fresh mc ⟨n, d, [], false⟩ h
        (Bool.eq_false_iff.mpr hhn) rfl

/-- `applyOp` with an update operation preserves well-formedness. -/
theorem WF_update_op (mc : MetricsCollection) (name : String) (v : PNum)
    (h : WF mc) : WF (applyOp mc (.update name v)) := by
  have hmap := updateFirst_pointwise (replace_alias name) (pyFloatNum v)
    mc.objects
  have happ : applyOp mc (.update name v) =
      { objects := (updateFirst (replace_alias name) (pyFloatNum v)
          mc.objects).2,
        objective_name := mc.objective_name } := rfl
  rw [happ]
  refine ⟨pairwise_of_pairs_eq hmap h.1, ?_, ?_⟩
  · intro m' hm'
    obtain ⟨m, hm, hn, hf⟩ := mem_pairs_of_mem hmap hm'
    show m'.is_objective = true ↔ mc.objective_name = some m'.name
    rw [← hn, ← hf]
    exact h.2.1 m hm
  · rcases h.2.2 with hnone | ⟨m1, hm1, hobj1⟩
    · exact Or.inl hnone
    · obtain ⟨x, hx, hxn, _⟩ := mem_pairs_of_mem hmap.symm hm1
      exact Or.inr ⟨x, hx, by rw [hobj1, hxn]⟩

/-- `applyOp` with a set-objective operation preserves well-formedness. -/
theorem WF_set_objective (mc : MetricsCollection) (name : String)
    (h : WF mc) : WF (applyOp mc (.setObjective name)) := by
  rcases hset : mc.set_objective name with e | mc2
  · have happ : applyOp mc (.setObjective name) = mc := by
      simp [applyOp, hset]
    rw [happ]; exact h
  · have happ : applyOp mc (.setObjective name) = mc2 := by
      simp [applyOp, hset]
    rw [happ]
    unfold MetricsCollection.set_objective at hset
    rcases hres : resolve_objective_name mc name with _ | n0 <;>
      rw [hres] at hset <;> dsimp only at hset
    · cases hset
    · by_cases hobj : mc.objective_name.isSome = true
      · rw [if_pos hobj] at hset; cases hset
      · rw [if_neg hobj] at hset
        obtain rfl := Except.ok.inj hset
        have hnone : mc.objective_name = Option.none := by
          cases ho : mc.objective_name with
          | none => rfl
          | some a => rw [ho] at hobj; exact absurd rfl hobj
        have hhas := resolve_has mc name n0 hres
        obtain ⟨m1, hm1, hm1n⟩ : ∃ m ∈ mc.objects, m.name = n0 := by
          obtain ⟨x, hx, hxn⟩ := List.any_eq_true.mp hhas
          exact ⟨x, hx, by simpa using hxn⟩
        refine ⟨?_, ?_, ?_⟩
        · have hnames : (mc.objects.map
              (fun m => if m.name = n0 then { m with is_objective := true }
                        else m)).map (fun m => m.name) =
              mc.objects.map (fun m => m.name) := by
            rw [List.map_map]
            apply List.map_congr_left
            intro m _
            by_cases hmn : m.name = n0
            · simp [hmn]
            · simp [hmn]
          have hp : (mc.objects.map (fun m => m.name)).Pairwise
              (fun a b => a ≠ b) := List.pairwise_map.mpr h.1
          rw [← hnames] at hp
          exact List.pairwise_map.mp hp
        · intro m' hm'
          obtain ⟨m, hm, rfl⟩ := List.mem_map.mp hm'
          by_cases hmn : m.name = n0
          · simp [hmn]
          · have hfl : m.is_objective = false := by
              have := h.2.1 m hm
              rw [hnone] at this
              cases hfm : m.is_objective with
              | false => rfl
              | true => exact absurd (this.mp hfm) (by simp)
            simp only [if_neg hmn]
            constructor
            · intro hf
              rw [hfl] at hf
              cases hf
            · intro ho
              exact absurd (Option.some.inj ho).symm hmn
        · refine Or.inr ⟨if m1.name = n0 then { m1 with is_objective := true }
            else m1, List.mem_map_of_mem _ hm1, ?_⟩
          rw [if_pos hm1n]
          show some n0 = some m1.name
          rw [hm1n]

/-- Every operation preserves well-formedness. -/
theorem WF_applyOp (mc : MetricsCollection) (op : MCOp) (h : WF mc) :
    WF (applyOp mc op) := by
  cases op with
  | addName n => exact WF_add_name mc n h
  | addMetric n d => exact WF_add_metric mc n d h
  | update n v => exact WF_update_op mc n v h
  | setObjective n => exact WF_set_objective mc n h

/-- Replaying operations from the empty collection preserves
well-formedness. -/
theorem WF_foldl (ops : List MCOp) :
    ∀ mc : MetricsCollection, WF mc → WF (ops.foldl applyOp mc) := by
  induction ops with
  | nil => intro mc h; exact h
  | cons op ops ih => intro mc h; exact ih _ (WF_applyOp mc op h)

/-- Every reachable collection state is well-formed. -/
theorem WF_runOps (ops : List MCOp) : WF (runOps ops) :=
  WF_foldl ops MetricsCollection.empty
    ⟨List.Pairwise.nil, fun m hm => absurd hm (List.not_mem_nil m),
      Or.inl rfl⟩

/-- In a name-distinct list whose flagged metrics all share one name, at most
one metric is flagged. -/
theorem countP_flag_le_one (n : String) :
    ∀ l : List Metric, l.Pairwise (fun a b => a.name ≠ b.name) →
      (∀ m ∈ l, m.is_objective = true → m.name = n) →
      l.countP (fun m => m.is_objective) ≤ 1 := by
  intro l
  induction l with
  | nil => intro _ _; simp
  | cons m l ih =>
    intro hp hf
    rw [List.countP_cons]
    by_cases hm : m.is_objective = true
    · have hz : l.countP (fun x => x.is_objective) = 0 := by
        rw [List.countP_eq_zero]
        intro a ha hfa
        have h1 : a.name = n := hf a (List.mem_cons_of_mem _ ha) hfa
        have h2 : m.name = n := hf m (List.mem_cons_self _ _) hm
        exact (List.pairwise_cons.mp hp).1 a ha (h2.trans h1.symm)
      rw [hz]
      simp [hm]
    · have hle := ih (List.pairwise_cons.mp hp).2
        (fun x hx => hf x (List.mem_cons_of_mem _ hx))
      simpa [hm] using hle

/-- A well-formed collection flags at most one metric as objective. -/
theorem WF_at_most_one (mc : MetricsCollection) (h : WF mc) :
    mc.objects.countP (fun m => m.is_objective) ≤ 1 := by
  rcases h.2.2 with hnone | ⟨m0, hm0, hobj⟩
  · have hz : mc.objects.countP (fun m => m.is_objective) = 0 := by
      rw [List.countP_eq_zero]
      intro a ha hfa
      have := (h.2.1 a ha).mp hfa
      rw [hnone] at this
      cases this
    rw [hz]
    exact Nat.zero_le 1
  · apply countP_flag_le_one m0.name mc.objects h.1
    intro m hm hf
    have := (h.2.1 m hm).mp hf
    rw [hobj] at this
    exact (Option.some.inj this).symm

/-- With an objective already set, any further `set_objective` call raises a
`ValueError` and leaves the collection unchanged. -/
theorem set_objective_twice (mc : MetricsCollection) (name : String)
    (h : mc.objective_name.isSome = true) :
    (∃ s, mc.set_objective name = .error (.valueError s)) ∧
    applyOp mc (.setObjective name) = mc := by
  have herr : ∃ s, mc.set_objective name = .error (.valueError s) := by
    unfold MetricsCollection.set_objective
    rcases hres : resolve_objective_name mc name with _ | n0 <;> dsimp only
    · exact ⟨"objective not part of the collection", rfl⟩
    · rw [if_pos h]
      exact ⟨"objective already set", rfl⟩
  obtain ⟨s, hs⟩ := herr
  exact ⟨⟨s, hs⟩, by simp [applyOp, hs]⟩

/-- C3: in every reachable MetricsCollection state, at most one metric is
flagged as the objective; and once the objective is set, any further
`set_objective` call - for any name, including the already-set one - raises a
`ValueError` and leaves the collection unchanged. -/
theorem objective_at_most_once (ops : List MCOp) (name : String) :
    (runOps ops).objects.countP (fun m => m.is_objective) ≤ 1 ∧
    ((runOps ops).objective_name.isSome = true →
      (∃ s, (runOps ops).set_objective name = .error (.valueError s)) ∧
      applyOp (runOps ops) (.setObjective name) = runOps ops) :=
  ⟨WF_at_most_one _ (WF_runOps ops),
    fun h => set_objective_twice _ name h⟩

/-- C3 witness: after adding `loss` and `accuracy` and setting the objective
to `accuracy`, a second `set_objective('loss')` - and likewise
`set_objective('accuracy')` itself - raises a `ValueError`. -/
theorem objective_at_most_once_witness :
    (runOps [.addName "loss", .addName "accuracy",
      .setObjective "accuracy"]).objective_name.isSome = true ∧
    (∃ s, (runOps [.addName "loss", .addName "accuracy",
      .setObjective "accuracy"]).set_objective "loss" =
        .error (.valueError s)) ∧
    (∃ s, (runOps [.addName "loss", .addName "accuracy",
      .setObjective "accuracy"]).set_objective "accuracy" =
        .error (.valueError s)) := by
  refine ⟨by decide, ?_, ?_⟩
  · exact ((objective_at_most_once [.addName "loss", .addName "accuracy",
      .setObjective "accuracy"] "loss").2 (by decide)).1
  · exact ((objective_at_most_once [.addName "loss", .addName "accuracy",
      .setObjective "accuracy"] "accuracy").2 (by decide)).1

/- ---------------------------------------------------------------------------
C5: serialization round-trip and JSON stability.
--------------------------------------------------------------------------- -/

/-- Deserializing a serialized metric restores it exactly (values kept). -/
theorem Metric.from_to_config (m : Metric) :
    Metric.from_config (Metric.to_config m) true = m := rfl

/-- Replaying configs none of which is flagged leaves the objective as it
was. -/
theorem obj_after_all_false :
    ∀ (cs : List MetricConfig) (o : Option String),
      (∀ c ∈ cs, c.is_objective = false) → obj_after o cs = o := by
  intro cs
  induction cs with
  | nil => intro o _; rfl
  | cons c cs ih =>
    intro o h
    rw [obj_after, h c (List.mem_cons_self _ _)]
    simpa using ih o (fun c2 hc2 => h c2 (List.mem_cons_of_mem _ hc2))

/-- Replaying configs whose flagged entries all carry the name `n` - with at
least one flagged entry, or `n` already recorded - ends with objective `n`. -/
theorem obj_after_flagged (n : String) :
    ∀ (cs : List MetricConfig) (o : Option String),
      (∀ c ∈ cs, c.is_objective = true → c.name = n) →
      ((∃ c ∈ cs, c.is_objective = true) ∨ o = some n) →
      obj_after o cs = some n := by
  intro cs
  induction cs with
  | nil =>
    intro o _ hex
    rcases hex with ⟨c, hc, _⟩ | ho
    · cases hc
    · rw [obj_after]; exact ho
  | cons c cs ih =>
    intro o hf hex
    rw [obj_after]
    cases hflag : c.is_objective with
    | true =>
      have hn := hf c (List.mem_cons_self _ _) hflag
      rw [if_pos rfl]
      exact ih _ (fun c2 hc2 hfc2 => hf c2 (List.mem_cons_of_mem _ hc2) hfc2)
        (Or.inr (by rw [hn]))
    | false =>
      rw [if_neg Bool.false_ne_true]
      apply ih _ (fun c2 hc2 hfc2 => hf c2 (List.mem_cons_of_mem _ hc2) hfc2)
      rcases hex with ⟨c2, hc2, hfc2⟩ | ho
      · rcases List.mem_cons.mp hc2 with rfl | hc3
        · rw [hflag] at hfc2; cases hfc2
        · exact Or.inl ⟨c2, hc3, hfc2⟩
      · exact Or.inr ho

/-- Replaying a config list with pairwise-distinct, all-absent names succeeds
and appends the deserialized metrics in order, tracking the objective flag. -/
theorem fromConfigAux_ok :
    ∀ (cs : List MetricConfig) (mc : MetricsCollection),
      (∀ c ∈ cs, mc.has_name c.name = false) →
      cs.Pairwise (fun a b => a.name ≠ b.name) →
      fromConfigAux true cs mc =
        .ok { objects := mc.objects ++
                cs.map (fun c => Metric.from_config c true),
              objective_name := obj_after mc.objective_name cs } := by
  intro cs
  induction cs with
  | nil => intro mc _ _; simp [fromConfigAux, obj_after]
  | cons c cs ih =>
    intro mc hdis hpair
    have hhn : mc.has_name (Metric.from_config c true).name = false :=
      hdis c (List.mem_cons_self _ _)
    rw [fromConfigAux]
    rw [show mc.add_metric (Metric.from_config c true) =
        .ok { mc with objects := mc.objects ++ [Metric.from_config c true] }
      from by rw [MetricsCollection.add_metric, if_neg (by simp [hhn])]]
    dsimp only
    have hdis2 : ∀ (o2 : Option String), ∀ c2 ∈ cs,
        (MetricsCollection.mk
          (mc.objects ++ [Metric.from_config c true]) o2).has_name
          c2.name = false := by
      intro o2 c2 hc2
      have hcc2 := (List.pairwise_cons.mp hpair).1 c2 hc2
      have hd := hdis c2 (List.mem_cons_of_mem _ hc2)
      simp only [MetricsCollection.has_name] at hd ⊢
      rw [List.any_append]
      simp [hd, Metric.from_config, hcc2]
    have hpair2 := (List.pairwise_cons.mp hpair).2
    cases hflag : c.is_objective with
    | true =>
      rw [show (Metric.from_config c true).is_objective = true from hflag]
      simp only [if_pos]
      rw [ih _ (hdis2 (some (Metric.from_config c true).name)) hpair2]
      rw [obj_after, hflag]
      simp [List.append_assoc, Metric.from_config]
    | false =>
      rw [show (Metric.from_config c true).is_objective = false from hflag]
      simp only [Bool.false_eq_true, if_false]
      rw [ih _ (hdis2 mc.objective_name) hpair2]
      rw [obj_after, hflag]
      simp [List.append_assoc, Metric.from_config]

/-- Float lists survive the dumps/loads round trip. -/
theorem dumpLoad_flt_list :
    ∀ qs : List ℚ,
      dumpLoadList (PList.ofList (qs.map PVal.pflt)) =
        some (PList.ofList (qs.map PVal.pflt)) := by
  intro qs
  induction qs with
  | nil => rfl
  | cons q qs ih =>
    simp only [List.map_cons, PList.ofList]
    rw [dumpLoadList, ih]
    rfl

/-- A serialized metric config survives the dumps/loads round trip. -/
theorem dumpLoad_metric_pval (c : MetricConfig) :
    dumpLoad (MetricConfig.to_pval c) = some (MetricConfig.to_pval c) := by
  rw [MetricConfig.to_pval]
  rw [dumpLoad]
  rw [dumpLoadDict, dumpLoadDict, dumpLoadDict, dumpLoadDict]
  rw [show dumpLoad (PVal.pstr c.name) = some (PVal.pstr c.name) from rfl]
  rw [show dumpLoad (PVal.pstr (directionStr c.direction)) =
    some (PVal.pstr (directionStr c.direction)) from rfl]
  rw [show dumpLoad (PVal.pbool c.is_objective) =
    some (PVal.pbool c.is_objective) from rfl]
  rw [show dumpLoad (PVal.plist (PList.ofList (c.history.map PVal.pflt))) =
      some (PVal.plist (PList.ofList (c.history.map PVal.pflt))) from by
    rw [dumpLoad, dumpLoad_flt_list]]
  rfl

/-- A whole serialized collection config survives the dumps/loads round
trip: `to_config` is JSON-stable. -/
theorem dumpLoad_config :
    ∀ cfg : List MetricConfig,
      dumpLoad (config_pval cfg) = some (config_pval cfg) := by
  intro cfg
  rw [config_pval, dumpLoad]
  suffices h : dumpLoadList (PList.ofList (cfg.map MetricConfig.to_pval)) =
      some (PList.ofList (cfg.map MetricConfig.to_pval)) by
    rw [h]
  induction cfg with
  | nil => rfl
  | cons c cs ih =>
    simp only [List.map_cons, PList.ofList]
    rw [dumpLoadList, dumpLoad_metric_pval c, ih]

/-- C5: serialization round-trips. For every well-formed MetricsCollection,
`from_config(to_config())` succeeds and yields a collection with the same
objective name and, metric by metric in `to_list` order, the same metric
names and recorded last values (indeed the same sorted metric list); and
`to_config` is JSON-stable: the Python value it serializes to is a fixed
point of `json.loads(json.dumps(..))`. -/
theorem metrics_roundtrip (mc : MetricsCollection) (hwf : WF mc) :
    ∃ mc2, MetricsCollection.from_config mc.to_config true = .ok mc2 ∧
      mc2.objective_name = mc.objective_name ∧
      mc2.to_list = mc.to_list ∧
      mc2.to_list.map (fun m => m.name) = mc.to_list.map (fun m => m.name) ∧
      mc2.to_list.map Metric.get_last_value =
        mc.to_list.map Metric.get_last_value ∧
      dumpLoad (config_pval mc.to_config) = some (config_pval mc.to_config) := by
  have hperm : mc.to_list.Perm mc.objects :=
    List.perm_insertionSort metricLE mc.objects
  have hsorted : List.Sorted metricLE mc.to_list :=
    List.sorted_insertionSort metricLE mc.objects
  have hsymm : Symmetric (fun a b : Metric => a.name ≠ b.name) :=
    fun _ _ h => Ne.symm h
  have hpairL : mc.to_list.Pairwise (fun a b => a.name ≠ b.name) :=
    (List.Perm.pairwise_iff (fun {x y} h => Ne.symm h) hperm).mpr hwf.1
  have hpairc : (mc.to_list.map Metric.to_config).Pairwise
      (fun a b => a.name ≠ b.name) :=
    List.pairwise_map.mpr (by simpa [Metric.to_config] using hpairL)
  have hdis : ∀ c ∈ mc.to_list.map Metric.to_config,
      MetricsCollection.empty.has_name c.name = false := fun _ _ => rfl
  have hrun := fromConfigAux_ok (mc.to_list.map Metric.to_config)
    MetricsCollection.empty hdis hpairc
  have hmap_id : (mc.to_list.map Metric.to_config).map
      (fun c => Metric.from_config c true) = mc.to_list := by
    rw [List.map_map]
    have h2 : ∀ m ∈ mc.to_list,
        ((fun c => Metric.from_config c true) ∘ Metric.to_config) m = id m :=
      fun m _ => rfl
    rw [List.map_congr_left h2, List.map_id]
  have hobj_eq : obj_after Option.none (mc.to_list.map Metric.to_config) =
      mc.objective_name := by
    rcases hwf.2.2 with hnone | ⟨m0, hm0, hobj⟩
    · rw [hnone]
      apply obj_after_all_false
      intro c hc
      obtain ⟨m, hm, rfl⟩ := List.mem_map.mp hc
      have hmo := hwf.2.1 m (hperm.mem_iff.mp hm)
      rw [hnone] at hmo
      show m.is_objective = false
      cases hfm : m.is_objective with
      | false => rfl
      | true => exact absurd (hmo.mp hfm) (by simp)
    · rw [hobj]
      apply obj_after_flagged
      · intro c hc hfc
        obtain ⟨m, hm, rfl⟩ := List.mem_map.mp hc
        have hmo := (hwf.2.1 m (hperm.mem_iff.mp hm)).mp hfc
        rw [hobj] at hmo
        exact (Option.some.inj hmo).symm
      · refine Or.inl ⟨Metric.to_config m0,
          List.mem_map_of_mem _ (hperm.mem_iff.mpr hm0), ?_⟩
        exact (hwf.2.1 m0 hm0).mpr hobj
  refine ⟨{ objects := mc.to_list, objective_name := mc.objective_name },
    ?_, rfl, ?_, ?_, ?_, dumpLoad_config mc.to_config⟩
  · rw [MetricsCollection.from_config]
    rw [show mc.to_config = mc.to_list.map Metric.to_config from rfl]
    rw [hrun, hmap_id]
    simp [MetricsCollection.empty, hobj_eq]
  · show List.insertionSort metricLE mc.to_list = mc.to_list
    exact List.Sorted.insertionSort_eq hsorted
  · show (List.insertionSort metricLE mc.to_list).map _ = _
    rw [List.Sorted.insertionSort_eq hsorted]
  · show (List.insertionSort metricLE mc.to_list).map _ = _
    rw [List.Sorted.insertionSort_eq hsorted]

/-- C5 witness: the round trip on a concrete collection holding `loss` with
one recorded value. -/
theorem metrics_roundtrip_witness :
    ∃ mc2, MetricsCollection.from_config
      (MetricsCollection.mk [⟨"loss", Direction.min, [1/2], false⟩]
        Option.none).to_config true = .ok mc2 ∧
      mc2.objective_name = Option.none := by
  obtain ⟨mc2, h1, h2, _⟩ := metrics_roundtrip
    (MetricsCollection.mk [⟨"loss", Direction.min, [1/2], false⟩]
      Option.none) ⟨by decide, by decide, by decide⟩
  exact ⟨mc2, h1, h2⟩

/- ---------------------------------------------------------------------------
C6, C7, C9: the RandomDistributions sampling primitives.
--------------------------------------------------------------------------- -/

/-- `random.choice` returns the element at the drawn position of a non-empty
sequence. -/
theorem pyChoice_ok {α : Type} (l : List α) (k : ℕ) (v0 : α)
    (hv : l.get? (k % l.length) = some v0) : pyChoice l k = .ok v0 := by
  obtain ⟨h, hget⟩ := List.get?_eq_some.mp hv
  unfold pyChoice
  rw [dif_neg (by omega : ¬ l.length = 0)]
  exact congrArg Except.ok hget

/-- C6 (code-bug evidence): `Range` raises `TypeError` on float bounds -
`range(start, stop, increment)` accepts only integers, although the docstring
promises int/float support; with integer arguments it draws an element of the
stepped range below `stop` and records it under the name/group key. -/
theorem range_float_type_error :
    RandomDistributions.Range "lr" (.pflt (1/2)) (.pflt (5/2)) (.pflt (1/2))
        "default" 0 ⟨[]⟩ = .error .typeError ∧
    RandomDistributions.Range "units" (.pint 0) (.pint 5) (.pint 2)
        "default" 1 ⟨[]⟩ =
      .ok (.pint 2, ⟨[(("default", "units"), .pint 2)]⟩) :=
  ⟨rfl, rfl⟩

/-- C7 counterexample: on the mixed-type selection `[1, 2.5]` with the float
element `2.5` drawn, `Choice` casts the drawn value with `int()` (the type of
`selection[0]`) and returns and records `2` - a value that differs from the
drawn element and is no element of the selection under Python `==`. -/
theorem choice_mixed_counterexample :
    RandomDistributions.Choice "units" [PVal.pint 1, PVal.pflt (5/2)]
        "default" 1 ⟨[]⟩ =
      .ok (.pint 2, ⟨[(("default", "units"), .pint 2)]⟩) ∧
    pyEq (PVal.pint 2) (PVal.pflt (5/2)) = false ∧
    (∀ v ∈ [PVal.pint 1, PVal.pflt (5/2)], pyEq v (PVal.pint 2) = false) := by
  refine ⟨rfl, by decide, by decide⟩

/-- C7 amended: `Choice` draws `selection[i]` at the uniformly drawn index
`i`, casts the drawn value to the type of `selection[0]` (`int()`, `float()`
or `str()`; other head types pass the value through unchanged because the
`unknown type` Exception in the source is constructed but never raised),
records under the name/group key exactly the value it returns, and returns
the drawn element itself whenever the drawn element already has the head's
int, float or str type - in particular for type-homogeneous selections; on
mixed-type selections the cast may alter the drawn value. -/
theorem choice_cast_semantics (selection : List PVal) (name group : String)
    (k : ℕ) (st : DistState) (hd v0 value : PVal)
    (hh : selection.head? = some hd)
    (hv : selection.get? (k % selection.length) = some v0)
    (hc : choiceCast hd v0 = .ok value) :
    RandomDistributions.Choice name selection group k st =
      .ok (value, record_hyperparameter name value group st) ∧
    (∀ z z2, hd = .pint z → v0 = .pint z2 → value = v0) ∧
    (∀ q q2, hd = .pflt q → v0 = .pflt q2 → value = v0) ∧
    (∀ s s2, hd = .pstr s → v0 = .pstr s2 → value = v0) ∧
    (isinst_int hd = false → isinst_flt hd = false → isinst_str hd = false →
      value = v0) := by
  have hpc := pyChoice_ok selection k v0 hv
  refine ⟨?_, ?_, ?_, ?_, ?_⟩
  · simp only [RandomDistributions.Choice, hpc, hh, hc]
  · intro z z2 h1 h2
    subst h1; subst h2
    rw [show choiceCast (.pint z) (.pint z2) = Except.ok (.pint z2)
      from rfl] at hc
    exact (Except.ok.inj hc).symm
  · intro q q2 h1 h2
    subst h1; subst h2
    rw [show choiceCast (.pflt q) (.pflt q2) = Except.ok (.pflt q2)
      from rfl] at hc
    exact (Except.ok.inj hc).symm
  · intro s s2 h1 h2
    subst h1; subst h2
    rw [show choiceCast (.pstr s) (.pstr s2) = Except.ok (.pstr s2)
      from rfl] at hc
    exact (Except.ok.inj hc).symm
  · intro h1 h2 h3
    rw [choiceCast, h1, h2, h3] at hc
    simp at hc
    exact hc.symm

/-- C7 amended witness: on the homogeneous int selection `[1, 3]` with drawn
index 1, `Choice` returns the drawn element `3` and records exactly it. -/
theorem choice_cast_semantics_witness :
    RandomDistributions.Choice "units" [PVal.pint 1, PVal.pint 3] "default" 1
        ⟨[]⟩ =
      .ok (PVal.pint 3,
        record_hyperparameter "units" (PVal.pint 3) "default" ⟨[]⟩) := by
  have h := choice_cast_semantics [PVal.pint 1, PVal.pint 3] "units" "default"
    1 ⟨[]⟩ (PVal.pint 1) (PVal.pint 3) (PVal.pint 3) rfl rfl rfl
  exact h.1

/-- C9: `Logarithmic` never applies its `precision` argument - for the same
generator draw, its returned and recorded value is identical under any two
precisions - unlike `Linear`, which rounds the drawn value to `precision`
decimals exactly when `precision` is nonzero and leaves it unrounded when
`precision` is zero. -/
theorem logarithmic_ignores_precision
    (logspace linspace : ℚ → ℚ → ℕ → List ℚ) (name : String)
    (start stop : ℚ) (num_buckets p1 p2 : ℕ) (group : String) (k : ℕ)
    (st : DistState) (v0 : ℚ)
    (hv : pyChoice (linspace start stop num_buckets) k = .ok v0) :
    RandomDistributions.Logarithmic logspace name start stop num_buckets p1
        group k st =
      RandomDistributions.Logarithmic logspace name start stop num_buckets p2
        group k st ∧
    (p1 ≠ 0 →
      RandomDistributions.Linear linspace name start stop num_buckets p1
          group k st =
        .ok (.pflt (pyRound v0 p1),
          record_hyperparameter name (.pflt (pyRound v0 p1)) group st)) ∧
    RandomDistributions.Linear linspace name start stop num_buckets 0 group
        k st =
      .ok (.pflt v0, record_hyperparameter name (.pflt v0) group st) := by
  refine ⟨rfl, ?_, ?_⟩
  · intro hp
    simp only [RandomDistributions.Linear, hv]
    rw [if_pos hp]
  · simp only [RandomDistributions.Linear, hv]
    rw [if_neg (by simp)]

/-- C9 witness: with a one-bucket linspace/logspace, `Logarithmic` ignores a
precision of 5 versus 0, and `Linear` with precision 0 returns the drawn
value unrounded. -/
theorem logarithmic_ignores_precision_witness :
    RandomDistributions.Logarithmic (fun _ _ _ => [1]) "lr" 0 1 1 5 "default"
        0 ⟨[]⟩ =
      RandomDistributions.Logarithmic (fun _ _ _ => [1]) "lr" 0 1 1 0
        "default" 0 ⟨[]⟩ ∧
    RandomDistributions.Linear (fun _ _ _ => [1]) "lr" 0 1 1 0 "default" 0
        ⟨[]⟩ =
      .ok (.pflt 1, record_hyperparameter "lr" (.pflt 1) "default" ⟨[]⟩) := by
  have h := logarithmic_ignores_precision (fun _ _ _ => [1])
    (fun _ _ _ => [1]) "lr" 0 1 1 5 0 "default" 0 ⟨[]⟩ 1 rfl
  exact ⟨h.1, h.2.2⟩

/- ---------------------------------------------------------------------------
C10: Instance.fit size bookkeeping.
--------------------------------------------------------------------------- -/

/-- The pre-validation training size `Instance.fit` computes: number of
batches plus the 2-batch fudge, times the batch size, for a Sequence; the
sample count otherwise. -/
def trainBase (x : XData) (kw : FitKwargs) : ℚ :=
  match x with
  | .seq n => ((n : ℚ) + 2) * kw.batch_size.getD 32
  | .arr n => (n : ℚ)

/-- C10 counterexample: with `len(x) = 10` and `validation_split = 1/4` the
code stores `validation_size = int(2.5) = 2` but
`training_size = int(10 - 2.5) = 7`, which is not `10 - validation_size = 8`
as the claim reads. -/
theorem fit_split_counterexample :
    (Instance.fit_sizes (.arr 10)
      ⟨Option.none, Option.none, some (1/4)⟩).validation_size = 2 ∧
    (Instance.fit_sizes (.arr 10)
        ⟨Option.none, Option.none, some (1/4)⟩).training_size ≠
      10 - (Instance.fit_sizes (.arr 10)
        ⟨Option.none, Option.none, some (1/4)⟩).validation_size := by
  exact ⟨by decide, by decide⟩

/-- C10 amended: after `Instance.fit`, `batch_size` is
`kwargs.get('batch_size', 32)`; with truthy `validation_data`,
`validation_size` is `len(validation_data[1])`; with a truthy
`validation_split = s` instead, `validation_size = int(t * s)` and
`training_size = int(t - t * s)` where `t` is the pre-validation training
size - the float product is subtracted from `t` before the final `int()`
truncation, not the truncated `validation_size`; otherwise
`validation_size = 0`; `training_size` is `int(t)` in the non-split cases. -/
theorem fit_sizes_semantics (x : XData) (kw : FitKwargs) :
    (Instance.fit_sizes x kw).batch_size = kw.batch_size.getD 32 ∧
    (∀ vlen, kw.validation_data = some vlen →
      (Instance.fit_sizes x kw).validation_size = (vlen : ℤ) ∧
      (Instance.fit_sizes x kw).training_size = pyTrunc (trainBase x kw)) ∧
    (∀ s, kw.validation_data = Option.none → kw.validation_split = some s →
      s ≠ 0 →
      (Instance.fit_sizes x kw).validation_size =
        pyTrunc (trainBase x kw * s) ∧
      (Instance.fit_sizes x kw).training_size =
        pyTrunc (trainBase x kw - trainBase x kw * s)) ∧
    ((kw.validation_data = Option.none ∧
      (kw.validation_split = Option.none ∨ kw.validation_split = some 0)) →
      (Instance.fit_sizes x kw).validation_size = 0 ∧
      (Instance.fit_sizes x kw).training_size = pyTrunc (trainBase x kw)) := by
  obtain ⟨b, vd, vs⟩ := kw
  refine ⟨?_, ?_, ?_, ?_⟩
  · rcases vd with _ | vlen
    · rcases vs with _ | s
      · rfl
      · by_cases hs : s = 0 <;> simp [Instance.fit_sizes, hs]
    · rfl
  · intro vlen hvd
    cases hvd
    cases x <;> exact ⟨rfl, rfl⟩
  · intro s hvd hvs hs
    cases hvd
    cases hvs
    cases x <;> simp [Instance.fit_sizes, trainBase, hs]
  · intro hcase
    obtain ⟨hvd, hvs⟩ := hcase
    cases hvd
    rcases hvs with hvs | hvs <;> cases hvs <;>
      cases x <;> simp [Instance.fit_sizes, trainBase]

/-- C10 amended witness: with `len(x) = 10` and `validation_split = 1/4`, the
sizes match the `int(t * s)` / `int(t - t * s)` formulas. -/
theorem fit_sizes_semantics_witness :
    (Instance.fit_sizes (.arr 10)
      ⟨Option.none, Option.none, some (1/4)⟩).validation_size =
        pyTrunc ((10 : ℚ) * (1/4)) ∧
    (Instance.fit_sizes (.arr 10)
      ⟨Option.none, Option.none, some (1/4)⟩).training_size =
        pyTrunc ((10 : ℚ) - 10 * (1/4)) := by
  have h := (fit_sizes_semantics (.arr 10)
    ⟨Option.none, Option.none, some (1/4)⟩).2.2.1 (1/4) rfl rfl (by norm_num)
  simpa [trainBase] using h
